import Mathlib

/-!
Verification development for the test-recorder Interaction Aggregation &
Report Engine.  The TypeScript source (`src/test-recorder.ts`,
`src/element-simplifier.ts`) is shallowly embedded: strings are Lean
`String`s (lists of characters), the per-page maps are insertion-ordered
association lists (mirroring JavaScript object key / `Map` iteration
order), and the recorder state is an explicit structure.
-/

namespace TestRecorder

/-! ## Substring capture search (embedding of the JS regexes)

`getElementIdentifier` in `test-recorder.ts` uses `html.match(/id="([^"]+)"/)`
and similar patterns.  A JS regex `match` without the global flag scans the
subject left to right and returns the first position where the pattern
matches; `pre="([^"]+)"` matches the literal characters of `pre="` followed
by a maximal nonempty run of non-quote characters and a closing quote.
`findCapture` reproduces exactly that search on a list of characters. -/

/-- Match the literal prefix `pre` at the head of `s`, returning the rest. -/
def matchPre : List Char → List Char → Option (List Char)
  | [], s => some s
  | _ :: _, [] => none
  | p :: ps, c :: cs => if c = p then matchPre ps cs else none

/-- Attempt the `([^"]+)"` part of the regex at the current position:
a nonempty run of non-quote characters followed by a closing quote. -/
def captureAt (r : List Char) : Option (List Char) :=
  if r.takeWhile (fun c => decide (c ≠ '"')) = [] then none
  else if (r.dropWhile (fun c => decide (c ≠ '"'))).head? = some '"' then
    some (r.takeWhile (fun c => decide (c ≠ '"')))
  else none

/-- Left-to-right scan for the first position where `pre="([^"]+)"` matches,
returning the captured group; embeds `String.prototype.match` with the
regexes of `getElementIdentifier`. -/
def findCapture (pre : List Char) : List Char → Option (List Char)
  | [] => none
  | c :: rest =>
    match (matchPre pre (c :: rest)).bind captureAt with
    | some v => some v
    | none => findCapture pre rest

/-! ## HTML fragment model

`simplifyHtml` in `element-simplifier.ts` delegates parsing to the external
cheerio library and then only ever reads, per node: its type (tag/text),
its tag name, its attribute map (in document order, first occurrence of a
duplicated name), and its concatenated descendant text.  We model a parsed
node by exactly those observations. -/

/-- A parsed top-level node: either a text run, or an element carrying its
tag name, attribute list (document order) and concatenated descendant text
(what cheerio's `.text()` returns, untrimmed). -/
inductive Node where
  | text : String → Node
  | elem : String → List (String × String) → String → Node
deriving DecidableEq, Repr

/-- Modelled from the spec: the HTML-fragment parsing done by the external
cheerio library (`cheerio.load(html, null, false)`), which is not part of
this repository.  Per the spec, the markup "may be a single element,
multiple sibling elements, or plain text"; we parse that well-formed
fragment grammar (elements with double-quoted or bare attributes, void
elements per the HTML spec, matching close tags), computing each element's
descendant text, and return `none` on input outside the grammar. -/
def voidTags : List String := ["area", "base", "br", "col", "embed", "hr",
  "img", "input", "link", "meta", "source", "track", "wbr"]

/-- Characters allowed in tag and attribute names by the model parser. -/
def isNameChar (c : Char) : Bool := c.isAlphanum || c == '-' || c == '_' || c == ':'

/-- Keep the first occurrence of each attribute name, as HTML parsers do. -/
def dedupAttrsAux (seen : List String) : List (String × String) → List (String × String)
  | [] => []
  | (a, v) :: rest =>
    if seen.contains a then dedupAttrsAux seen rest
    else (a, v) :: dedupAttrsAux (a :: seen) rest

/-- Text observation of a node (cheerio `.text()`). -/
def nodeText : Node → String
  | .text s => s
  | .elem _ _ t => t

/-- Concatenated text of a node list, in document order. -/
def nodesText (ns : List Node) : String :=
  ns.foldl (fun acc n => acc ++ nodeText n) ""

/-- Parse the attribute section of an open tag up to `>` (or `/>`),
returning the attributes, a self-closing flag, and the rest of the input. -/
def parseAttrs : Nat → List Char → Option (List (String × String) × Bool × List Char)
  | 0, _ => none
  | _ + 1, [] => none
  | fuel + 1, s =>
    let s1 := s.dropWhile Char.isWhitespace
    match s1 with
    | '>' :: rest => some ([], false, rest)
    | '/' :: '>' :: rest => some ([], true, rest)
    | c :: _ =>
      if isNameChar c then
        let nm := s1.takeWhile isNameChar
        let s2 := s1.drop nm.length
        match s2 with
        | '=' :: '"' :: s3 =>
          let v := s3.takeWhile (fun ch => decide (ch ≠ '"'))
          match s3.dropWhile (fun ch => decide (ch ≠ '"')) with
          | '"' :: s4 =>
            match parseAttrs fuel s4 with
            | some (attrs, sc, rest) => some ((nm.asString, v.asString) :: attrs, sc, rest)
            | none => none
          | _ => none
        | _ =>
          match parseAttrs fuel s2 with
          | some (attrs, sc, rest) => some ((nm.asString, "") :: attrs, sc, rest)
          | none => none
      else none
    | [] => none

/-- Parse a sequence of sibling nodes, stopping at a close tag or the end
of the input; returns the nodes and the unconsumed rest. -/
def parseNodes : Nat → List Char → Option (List Node × List Char)
  | 0, _ => none
  | _ + 1, [] => some ([], [])
  | _ + 1, '<' :: '/' :: rest => some ([], '<' :: '/' :: rest)
  | fuel + 1, '<' :: rest =>
    let tag := rest.takeWhile isNameChar
    if tag.isEmpty then none
    else
      match parseAttrs fuel (rest.drop tag.length) with
      | none => none
      | some (attrs, selfClosed, s2) =>
        if selfClosed || voidTags.contains tag.asString then
          match parseNodes fuel s2 with
          | some (ns, r) => some (Node.elem tag.asString (dedupAttrsAux [] attrs) "" :: ns, r)
          | none => none
        else
          match parseNodes fuel s2 with
          | none => none
          | some (children, s3) =>
            match s3 with
            | '<' :: '/' :: s4 =>
              let ctag := s4.takeWhile isNameChar
              if ctag = tag then
                match s4.drop ctag.length with
                | '>' :: s5 =>
                  match parseNodes fuel s5 with
                  | some (ns, r) =>
                    some (Node.elem tag.asString (dedupAttrsAux [] attrs) (nodesText children) :: ns, r)
                  | none => none
                | _ => none
              else none
            | _ => none
  | fuel + 1, c :: rest =>
    let t := (c :: rest).takeWhile (fun ch => decide (ch ≠ '<'))
    match parseNodes fuel ((c :: rest).drop t.length) with
    | some (ns, r) => some (Node.text t.asString :: ns, r)
    | none => none

/-- Parse a whole fragment; fails if the input is not fully consumed. -/
def parseFragment (s : List Char) : Option (List Node) :=
  match parseNodes (s.length + 2) s with
  | some (ns, []) => some ns
  | _ => none

/-! ## element-simplifier.ts -/

/-- Embedding of `String.prototype.trim` (and cheerio text trimming):
drop whitespace from both ends.  Defined over the character list so that
it evaluates by kernel reduction. -/
def trimStr (s : String) : String :=
  (((s.data.dropWhile Char.isWhitespace).reverse.dropWhile Char.isWhitespace).reverse).asString

/-- The attribute allow-list `ALLOWED_ATTRS` of `element-simplifier.ts`. -/
def ALLOWED_ATTRS : List String := ["id", "class", "name", "type", "href", "placeholder", "role"]

/-- `MAX_ATTR_LENGTH` of `element-simplifier.ts`. -/
def MAX_ATTR_LENGTH : Nat := 40

/-- Embedding of `String.prototype.startsWith` for the attribute-name
prefix tests of `filterAttributes`. -/
def strStarts (pre s : String) : Bool := pre.data.isPrefixOf s.data

/-- The inclusion condition of `filterAttributes`: allow-listed name or a
name starting with `data` or `test`, and value length at most 40. -/
def attrKeep (a v : String) : Bool :=
  (ALLOWED_ATTRS.contains a || strStarts "data" a || strStarts "test" a)
    && decide (v.length ≤ MAX_ATTR_LENGTH)

/-- Embedding of `filterAttributes`: format the kept attributes, preceded
by a space when any survive. -/
def filterAttributes (attrs : List (String × String)) : String :=
  let filtered := attrs.filterMap
    (fun p => if attrKeep p.1 p.2 then some (p.1 ++ "=\"" ++ p.2 ++ "\"") else none)
  if filtered.isEmpty then "" else " " ++ String.intercalate " " filtered

/-- Embedding of `simplifyTag`: tag name, filtered attributes, trimmed
inner text. -/
def simplifyTag (tag : String) (attrs : List (String × String)) (itext : String) : String :=
  "<" ++ tag ++ filterAttributes attrs ++ ">" ++ trimStr itext ++ "</" ++ tag ++ ">"

/-- Embedding of the node-list processing of `simplifyHtml`: empty or
single-text fragments yield the trimmed text, a single element is rewritten
by `simplifyTag`, and a multi-node fragment simplifies each element,
trims each text node (omitting empty ones) and joins with single spaces. -/
def simplifyFragment : List Node → String
  | [] => ""
  | [Node.text s] => trimStr s
  | [Node.elem t a itext] => simplifyTag t a itext
  | ns => String.intercalate " " (ns.filterMap (fun n =>
      match n with
      | Node.text s => if trimStr s = "" then none else some (trimStr s)
      | Node.elem t a itext => some (simplifyTag t a itext)))

/-- Embedding of `simplifyHtml`.  On input outside the model parser's
grammar it degrades to the trimmed raw input, per the spec's
"a parse failure degrades to returning the trimmed raw input text". -/
def simplifyHtml (html : String) : String :=
  match parseFragment html.data with
  | some ns => simplifyFragment ns
  | none => trimStr html

/-! ## getElementIdentifier (test-recorder.ts, lines 466-482) -/

/-- The third and fourth rules of `getElementIdentifier`: the
`placeholder` and `type` pair, else the simplified-markup fallback. -/
def identifierFromPair (html : String) : String :=
  match findCapture ("placeholder=\"").data html.data,
        findCapture ("type=\"").data html.data with
  | some p, some t => "type-placeholder:" ++ t.asString ++ "-" ++ p.asString
  | _, _ => simplifyHtml html

/-- The second rule of `getElementIdentifier`: the `name` capture, else the
remaining rules. -/
def identifierFromName (html : String) : String :=
  match findCapture ("name=\"").data html.data with
  | some v => "name:" ++ v.asString
  | none => identifierFromPair html

/-- Embedding of `getElementIdentifier`: first capture of `id="([^"]+)"`,
else of `name="([^"]+)"`, else the pair `placeholder="([^"]+)"` and
`type="([^"]+)"`, else the simplified markup. -/
def getElementIdentifier (html : String) : String :=
  match findCapture ("id=\"").data html.data with
  | some v => "id:" ++ v.asString
  | none => identifierFromName html

/-! ## Data model (types.ts, as used by test-recorder.ts) -/

/-- `RecordingStage` of types.ts. -/
inductive Stage where
  | GIVEN | WHEN | THEN
deriving DecidableEq, Repr

/-- The stage-switch key accepted by `switchStage`. -/
inductive StageKey where
  | G | W | T
deriving DecidableEq, Repr

/-- The `stageMap` literal inside `switchStage`. -/
def stageMap : StageKey → Stage
  | .G => .GIVEN
  | .W => .WHEN
  | .T => .THEN

/-- Section title text of a stage, as interpolated into the report. -/
def stageName : Stage → String
  | .GIVEN => "GIVEN"
  | .WHEN => "WHEN"
  | .THEN => "THEN"

/-- The event kind of a `RecordedEvent`. -/
inductive EventType where
  | click | input
deriving DecidableEq, Repr

/-- `RecordedEvent` of types.ts: `{type, html, value?}`. -/
structure RecordedEvent where
  type : EventType
  html : String
  value : Option String := none
deriving DecidableEq, Repr

/-- `InputEvent` of types.ts, as read by `isInputAlreadyRecorded`. -/
structure InputEvent where
  value : String
  html : String
deriving DecidableEq, Repr

/-- `StageEvents` of types.ts: one StageRecord of the ledger. -/
structure StageEvents where
  stage : Stage
  events : List RecordedEvent
deriving DecidableEq, Repr

/-- A `PageMap` (JavaScript object keyed by URL): an association list in
key-insertion order, matching the `for..in` iteration order of the
string-keyed objects used by the recorder. -/
abbrev PageMap (α : Type) : Type := List (String × List α)

/-- Key-presence test: models `!map[url]` being false (an existing array,
even an empty one, is truthy). -/
def containsKey {α : Type} (m : PageMap α) (k : String) : Bool :=
  m.any (fun p => p.1 == k)

/-- Value lookup with the default `[]`, the view the collection loops take. -/
def lookupList {α : Type} (m : PageMap α) (k : String) : List α :=
  match m with
  | [] => []
  | (k', v) :: rest => if k' = k then v else lookupList rest k

/-- One line of `initializePageMaps`: `if (!map[url]) map[url] = []`. -/
def ensureKey {α : Type} (m : PageMap α) (k : String) : PageMap α :=
  if containsKey m k then m else m ++ [(k, [])]

/-- The mutable fields of the `TestRecorder` class that the aggregation
core touches. -/
structure RecorderState where
  pageClicksMap : PageMap String
  pageInputsMap : PageMap InputEvent
  pageEventsMap : PageMap RecordedEvent
  currentUrl : String
  currentStage : Stage
  stageEvents : List StageEvents
deriving DecidableEq, Repr

/-- Embedding of `initializePageMaps(url)`. -/
def initializePageMaps (url : String) (s : RecorderState) : RecorderState :=
  { s with
    pageClicksMap := ensureKey s.pageClicksMap url
    pageInputsMap := ensureKey s.pageInputsMap url
    pageEventsMap := ensureKey s.pageEventsMap url }

/-- The collection loop shared by `switchStage` and `printRecordedElements`:
`for (const url in map) if (map[url]?.length > 0) allEvents.push(...)`,
i.e. the per-page event lists flattened in key-insertion order. -/
def collectAllEvents (m : PageMap RecordedEvent) : List RecordedEvent :=
  (m.map (fun p => p.2)).flatten

/-- Embedding of `switchStage` (test-recorder.ts, lines 85-116). -/
def switchStage (key : StageKey) (s : RecorderState) : RecorderState :=
  let newStage := stageMap key
  if newStage = s.currentStage then s
  else
    let allEvents := collectAllEvents s.pageEventsMap
    let ledger :=
      if allEvents.length > 0 then
        s.stageEvents ++ [{ stage := s.currentStage, events := allEvents }]
      else s.stageEvents
    let s1 := initializePageMaps s.currentUrl
      { s with stageEvents := ledger, pageEventsMap := [] }
    { s1 with currentStage := newStage }

/-- The state mutation of `printRecordedElements` (lines 387-405): append
the final stage segment, if non-empty, to the ledger.  Nothing is cleared. -/
def finalizeLedger (s : RecorderState) : RecorderState :=
  let allEvents := collectAllEvents s.pageEventsMap
  if allEvents.length > 0 then
    { s with stageEvents := s.stageEvents ++ [{ stage := s.currentStage, events := allEvents }] }
  else s

/-! ## Report renderer (printEventsByStage, lines 410-461) -/

/-- Identity of an event, as used by the dedup loop. -/
def idOf (e : RecordedEvent) : String := getElementIdentifier e.html

/-- Lookup in the insertion-ordered model of the JS `Map`. -/
def lookupKey (m : List (String × RecordedEvent)) (k : String) : Option RecordedEvent :=
  match m with
  | [] => none
  | (k', e) :: rest => if k' = k then some e else lookupKey rest k

/-- `Map.prototype.set`: update in place if the key exists, else append. -/
def setKey (m : List (String × RecordedEvent)) (k : String) (e : RecordedEvent) :
    List (String × RecordedEvent) :=
  match m with
  | [] => [(k, e)]
  | (k', e') :: rest => if k' = k then (k, e) :: rest else (k', e') :: setKey rest k e

/-- One iteration of the dedup loop: record first-seen order, then
`lastEventMap.set(elementId, event)`. -/
def buildStep (acc : List String × List (String × RecordedEvent)) (e : RecordedEvent) :
    List String × List (String × RecordedEvent) :=
  let k := idOf e
  ((if (lookupKey acc.2 k).isSome then acc.1 else acc.1 ++ [k]), setKey acc.2 k e)

/-- The dedup loop over the concatenated stage events: returns
(`eventOrder`, `lastEventMap`). -/
def buildDedup (evs : List RecordedEvent) : List String × List (String × RecordedEvent) :=
  evs.foldl buildStep ([], [])

/-- The printable body of a surviving event: clicks always print their
simplified markup; inputs print `keys sent: ...` only when the value
(`event.value || ''`) is non-empty. -/
def lineOf (e : RecordedEvent) : Option String :=
  match e.type with
  | .click => some (simplifyHtml e.html)
  | .input =>
    let v := e.value.getD ""
    if v = "" then none
    else some ("keys sent: " ++ v ++ "; html element:" ++ simplifyHtml e.html)

/-- The printing loop: walk `eventOrder`, printing the last event of each
identity with a counter that only advances on printed lines (an identity
whose surviving event produces no body — an empty-valued input — is
skipped without consuming a number). -/
def printLoop (m : List (String × RecordedEvent)) : Nat → List String → List String
  | _, [] => []
  | n, k :: rest =>
    match (lookupKey m k).bind lineOf with
    | none => printLoop m n rest
    | some body => (toString n ++ ". " ++ body) :: printLoop m (n + 1) rest

/-- The numbered lines one stage section prints for a concatenated event
sequence (dedup by identity, then the numbered print loop). -/
def printStageEvents (evs : List RecordedEvent) : List String :=
  printLoop (buildDedup evs).2 1 (buildDedup evs).1

/-- One stage's output inside `printEventsByStage`: nothing at all when the
stage has no StageRecords (the `continue`), else the header line followed
by the numbered lines of the concatenated event sequences. -/
def sectionFor (ledger : List StageEvents) (st : Stage) : List String :=
  let recs := ledger.filter (fun se => se.stage == st)
  if recs.isEmpty then []
  else ("\n=== " ++ stageName st ++ " ===") ::
    printStageEvents ((recs.map (fun se => se.events)).flatten)

/-- Embedding of `printEventsByStage`: the fixed `GIVEN, WHEN, THEN` loop,
one console line per list entry. -/
def printEventsByStage (ledger : List StageEvents) : List String :=
  sectionFor ledger .GIVEN ++ sectionFor ledger .WHEN ++ sectionFor ledger .THEN

/-! ## Spec-side notions used to state the claims -/

/-- First-seen order: the first occurrence of each identity, in order. -/
def dedupFirst : List String → List String
  | [] => []
  | x :: xs => x :: dedupFirst (xs.filter (fun y => y != x))
termination_by l => l.length
decreasing_by
  simp only [List.length_cons]
  exact Nat.lt_succ_of_le (List.length_filter_le _ _)

/-- The last event of identity `k` in a sequence, if any. -/
def lastWith (k : String) : List RecordedEvent → Option RecordedEvent
  | [] => none
  | e :: rest =>
    match lastWith k rest with
    | some r => some r
    | none => if idOf e = k then some e else none

/-- Consecutive numbering of a list of line bodies, starting at `n`. -/
def numberFrom : Nat → List String → List String
  | _, [] => []
  | n, s :: rest => (toString n ++ ". " ++ s) :: numberFrom (n + 1) rest

/-- The regex `pre="([^"]+)"` has a match inside `s`: somewhere in `s` the
literal characters of `pre` are followed by a nonempty quote-free run and
a closing quote. -/
def HasCapture (pre s : List Char) : Prop :=
  ∃ l v r, s = l ++ pre ++ v ++ '"' :: r ∧ v ≠ [] ∧ ∀ c ∈ v, c ≠ '"'

/-- The leftmost match of `pre="([^"]+)"` in `s` captures `v`: some
decomposition of `s` exhibits `v` as a capture, and no capture occurrence
starts strictly earlier.  Since the capture at a fixed position is the
maximal quote-free run up to the closing quote, this determines `v`
uniquely. -/
def FirstCapture (pre v s : List Char) : Prop :=
  ∃ l r, s = l ++ pre ++ v ++ '"' :: r ∧ v ≠ [] ∧ (∀ c ∈ v, c ≠ '"') ∧
    ∀ l' v' r', s = l' ++ pre ++ v' ++ '"' :: r' → v' ≠ [] → (∀ c ∈ v', c ≠ '"') →
      l.length ≤ l'.length

/-- None of the resolver's substring patterns matches in `m`, so
`getElementIdentifier` reaches its simplified-markup fallback. -/
def resolverPatternFree (m : String) : Prop :=
  ¬ HasCapture ("id=\"").data m.data ∧ ¬ HasCapture ("name=\"").data m.data ∧
    (¬ HasCapture ("placeholder=\"").data m.data ∨ ¬ HasCapture ("type=\"").data m.data)

/-- Spec wording of §4.1: the attribute name is in the allow-list or starts
with `data` or `test`. -/
def allowedAttrName (a : String) : Prop :=
  a ∈ ALLOWED_ATTRS ∨ strStarts "data" a = true ∨ strStarts "test" a = true

/-- Spec wording of the §4.1 keep condition: allow-listed (or `data`/`test`
prefixed) name and value length at most 40. -/
def specKeep (p : String × String) : Bool :=
  (decide (p.1 ∈ ALLOWED_ATTRS) || strStarts "data" p.1 || strStarts "test" p.1)
    && decide (p.2.length ≤ 40)

/-- One formatted attribute, `name="value"`. -/
def fmtAttr (p : String × String) : String := p.1 ++ "=\"" ++ p.2 ++ "\""

/-- Spec wording of the simplified tag's attribute text: the kept
attributes in original order, space separated, preceded by a space when any
survive. -/
def specAttrText (attrs : List (String × String)) : String :=
  match attrs.filter specKeep with
  | [] => ""
  | kept => " " ++ String.intercalate " " (kept.map fmtAttr)

/-- A concrete click event used by the state-machine witnesses. -/
def exClick : RecordedEvent := { type := .click, html := "<button id=\"go\">Go</button>" }

/-- A concrete recorder state with one recorded event, current stage GIVEN. -/
def c2exState : RecorderState :=
  { pageClicksMap := [("u", ["<button id=\"go\">Go</button>"])]
    pageInputsMap := [("u", [])]
    pageEventsMap := [("u", [exClick])]
    currentUrl := "u"
    currentStage := .GIVEN
    stageEvents := [] }

/-- A concrete recorder state with one recorded event, current stage THEN. -/
def c5exState : RecorderState :=
  { pageClicksMap := [("u", ["<button id=\"go\">Go</button>"])]
    pageInputsMap := [("u", [])]
    pageEventsMap := [("u", [exClick])]
    currentUrl := "u"
    currentStage := .THEN
    stageEvents := [] }

/-- A concrete empty-valued input event used by the renderer claims. -/
def exEmptyInput : RecordedEvent :=
  { type := EventType.input, html := "<input id=\"q\">", value := some "" }

/-- A concrete ledger with one WHEN record whose only event is an
empty-valued input. -/
def exWhenLedger : List StageEvents := [{ stage := Stage.WHEN, events := [exEmptyInput] }]

/-- A concrete recorder state with an empty event history. -/
def c8exState : RecorderState :=
  { pageClicksMap := [("u", [])]
    pageInputsMap := [("u", [])]
    pageEventsMap := [("u", [])]
    currentUrl := "u"
    currentStage := .GIVEN
    stageEvents := [] }

/-! ## Lemmas: correctness of the capture search -/

theorem matchPre_eq_some {pre : List Char} :
    ∀ {s r : List Char}, matchPre pre s = some r ↔ s = pre ++ r := by
  induction pre with
  | nil => intro s r; simp [matchPre]
  | cons p ps ih =>
    intro s r
    cases s with
    | nil => simp [matchPre]
    | cons c cs =>
      by_cases h : c = p
      · subst h; simp [matchPre, ih]
      · simp [matchPre, h]

theorem takeWhile_quote {v : List Char} (r : List Char) (hv : ∀ c ∈ v, c ≠ '"') :
    (v ++ '"' :: r).takeWhile (fun c => decide (c ≠ '"')) = v := by
  induction v with
  | nil => simp [List.takeWhile_cons]
  | cons c cs ih =>
    have hc : c ≠ '"' := hv c (by simp)
    simp only [List.cons_append, List.takeWhile_cons, decide_eq_true_eq]
    rw [if_pos hc, ih (fun x hx => hv x (by simp [hx]))]

theorem dropWhile_quote {v : List Char} (r : List Char) (hv : ∀ c ∈ v, c ≠ '"') :
    (v ++ '"' :: r).dropWhile (fun c => decide (c ≠ '"')) = '"' :: r := by
  induction v with
  | nil => simp [List.dropWhile_cons]
  | cons c cs ih =>
    have hc : c ≠ '"' := hv c (by simp)
    simp only [List.cons_append, List.dropWhile_cons, decide_eq_true_eq]
    rw [if_pos hc, ih (fun x hx => hv x (by simp [hx]))]

theorem captureAt_eq_some {r v : List Char} :
    captureAt r = some v ↔
      v ≠ [] ∧ (∀ c ∈ v, c ≠ '"') ∧ ∃ r', r = v ++ '"' :: r' := by
  constructor
  · intro h
    unfold captureAt at h
    split_ifs at h with h1 h2
    have hv : v = r.takeWhile (fun c => decide (c ≠ '"')) := (Option.some.inj h).symm
    refine ⟨hv ▸ h1, fun c hc => ?_, ?_⟩
    · have := List.mem_takeWhile_imp (hv ▸ hc)
      simpa using this
    · rcases hd : r.dropWhile (fun c => decide (c ≠ '"')) with _ | ⟨b, bs⟩
      · rw [hd] at h2; cases h2
      · rw [hd] at h2
        have hb : b = '"' := by simpa using h2
        refine ⟨bs, ?_⟩
        have hsplit := (List.takeWhile_append_dropWhile
          (p := fun c => decide (c ≠ '"')) (l := r)).symm
        rw [hd, hb] at hsplit
        rw [hv]
        exact hsplit
  · rintro ⟨hne, hq, r', rfl⟩
    unfold captureAt
    rw [takeWhile_quote r' hq, dropWhile_quote r' hq]
    rw [if_neg hne]
    simp

/-- Step equation for the scan: a successful match-and-capture at the
current position returns immediately. -/
theorem findCapture_cons_some {pre : List Char} {c : Char} {rest v : List Char}
    (h : (matchPre pre (c :: rest)).bind captureAt = some v) :
    findCapture pre (c :: rest) = some v := by
  rw [findCapture, h]

/-- Step equation for the scan: on failure at the current position the scan
moves one character right. -/
theorem findCapture_cons_none {pre : List Char} {c : Char} {rest : List Char}
    (h : (matchPre pre (c :: rest)).bind captureAt = none) :
    findCapture pre (c :: rest) = findCapture pre rest := by
  rw [findCapture, h]

theorem findCapture_sound {pre : List Char} :
    ∀ {s v : List Char}, findCapture pre s = some v →
      (∃ l r, s = l ++ pre ++ v ++ '"' :: r) ∧ v ≠ [] ∧ ∀ c ∈ v, c ≠ '"' := by
  intro s
  induction s with
  | nil => intro v h; simp [findCapture] at h
  | cons c cs ih =>
    intro v h
    rcases hb : (matchPre pre (c :: cs)).bind captureAt with _ | v0
    · rw [findCapture_cons_none hb] at h
      obtain ⟨⟨l, r, hdec⟩, hne, hq⟩ := ih h
      exact ⟨⟨c :: l, r, by simp [hdec]⟩, hne, hq⟩
    · rw [findCapture_cons_some hb] at h
      cases h
      rcases hm : matchPre pre (c :: cs) with _ | r0 <;> rw [hm] at hb
      · cases hb
      · simp only [Option.some_bind] at hb
        obtain ⟨hne, hq, r', hr0⟩ := captureAt_eq_some.mp hb
        have hs : c :: cs = pre ++ r0 := matchPre_eq_some.mp hm
        exact ⟨⟨[], r', by simp [hs, hr0]⟩, hne, hq⟩

theorem findCapture_ne_none {pre : List Char} :
    ∀ (l : List Char) {v : List Char} (r : List Char), v ≠ [] → (∀ c ∈ v, c ≠ '"') →
      findCapture pre (l ++ pre ++ v ++ '"' :: r) ≠ none := by
  intro l
  induction l with
  | nil =>
    intro v r hne hq
    have hcap : captureAt (v ++ '"' :: r) = some v := captureAt_eq_some.mpr ⟨hne, hq, r, rfl⟩
    have hm : matchPre pre (pre ++ (v ++ '"' :: r)) = some (v ++ '"' :: r) :=
      matchPre_eq_some.mpr rfl
    have hshape : ∃ a as, pre ++ v ++ '"' :: r = a :: as := by
      rcases pre with _ | ⟨p, ps⟩
      · rcases v with _ | ⟨a, as⟩
        · exact absurd rfl hne
        · exact ⟨a, as ++ '"' :: r, by simp⟩
      · exact ⟨p, ps ++ v ++ '"' :: r, by simp⟩
    obtain ⟨a, as, hcons⟩ := hshape
    have hb : (matchPre pre (a :: as)).bind captureAt = some v := by
      rw [← hcons]
      have hm2 : matchPre pre (pre ++ v ++ '"' :: r) = some (v ++ '"' :: r) := by
        rw [← hm]; congr 1; simp
      rw [hm2, Option.some_bind, hcap]
    rw [List.nil_append, hcons, findCapture_cons_some hb]
    simp
  | cons c cs ih =>
    intro v r hne hq
    simp only [List.cons_append]
    rcases hb : (matchPre pre (c :: (cs ++ pre ++ v ++ '"' :: r))).bind captureAt with _ | v0
    · rw [findCapture_cons_none (by simpa using hb)]
      exact ih r hne hq
    · rw [findCapture_cons_some (by simpa using hb)]
      simp

/-- At a fixed match position, the capture is uniquely determined: it is
the quote-free run up to the first closing quote. -/
theorem capture_pos_unique {pre s l1 l2 v1 v2 r1 r2 : List Char}
    (h1 : s = l1 ++ pre ++ v1 ++ '"' :: r1) (h2 : s = l2 ++ pre ++ v2 ++ '"' :: r2)
    (hq1 : ∀ c ∈ v1, c ≠ '"') (hq2 : ∀ c ∈ v2, c ≠ '"')
    (hlen : l1.length = l2.length) : v1 = v2 := by
  have hs : l1 ++ (pre ++ (v1 ++ '"' :: r1)) = l2 ++ (pre ++ (v2 ++ '"' :: r2)) := by
    have := h1.symm.trans h2
    simpa [List.append_assoc] using this
  obtain ⟨-, htail⟩ := List.append_inj hs hlen
  obtain ⟨-, htail2⟩ := List.append_inj htail rfl
  have hv1 : v1 = (v1 ++ '"' :: r1).takeWhile (fun c => decide (c ≠ '"')) :=
    (takeWhile_quote r1 hq1).symm
  rw [hv1, htail2, takeWhile_quote r2 hq2]

/-- The scan returns the capture of the leftmost matching position. -/
theorem findCapture_first {pre : List Char} :
    ∀ {s v : List Char}, findCapture pre s = some v → FirstCapture pre v s := by
  intro s
  induction s with
  | nil => intro v h; simp [findCapture] at h
  | cons c cs ih =>
    intro v h
    rcases hb : (matchPre pre (c :: cs)).bind captureAt with _ | v0
    · rw [findCapture_cons_none hb] at h
      obtain ⟨l, r, hdec, hne, hq, hmin⟩ := ih h
      refine ⟨c :: l, r, by simp [hdec], hne, hq, ?_⟩
      intro l' v' r' hdec' hne' hq'
      rcases l' with _ | ⟨c', l''⟩
      · exfalso
        rw [List.nil_append] at hdec'
        have hm : matchPre pre (c :: cs) = some (v' ++ '"' :: r') :=
          matchPre_eq_some.mpr (by simp [hdec', List.append_assoc])
        rw [hm, Option.some_bind, captureAt_eq_some.mpr ⟨hne', hq', r', rfl⟩] at hb
        cases hb
      · rw [List.cons_append, List.cons_append, List.cons_append] at hdec'
        obtain ⟨-, hcs⟩ := List.cons.inj hdec'
        simp only [List.length_cons]
        exact Nat.succ_le_succ (hmin l'' v' r' hcs hne' hq')
    · rw [findCapture_cons_some hb] at h
      cases h
      rcases hm : matchPre pre (c :: cs) with _ | r0 <;> rw [hm] at hb
      · cases hb
      · simp only [Option.some_bind] at hb
        obtain ⟨hne, hq, r', hr0⟩ := captureAt_eq_some.mp hb
        have hs : c :: cs = pre ++ r0 := matchPre_eq_some.mp hm
        exact ⟨[], r', by simp [hs, hr0], hne, hq, fun l' v' r' _ _ _ => Nat.zero_le _⟩

/-- Two leftmost captures of the same pattern in the same string agree. -/
theorem FirstCapture_unique {pre v w s : List Char}
    (hv : FirstCapture pre v s) (hw : FirstCapture pre w s) : v = w := by
  obtain ⟨l1, r1, h1, hne1, hq1, hmin1⟩ := hv
  obtain ⟨l2, r2, h2, hne2, hq2, hmin2⟩ := hw
  exact capture_pos_unique h1 h2 hq1 hq2
    (Nat.le_antisymm (hmin1 l2 w r2 h2 hne2 hq2) (hmin2 l1 v r1 h1 hne1 hq1))

theorem findCapture_none_iff {pre s : List Char} :
    findCapture pre s = none ↔ ¬ HasCapture pre s := by
  constructor
  · rintro h ⟨l, v, r, hdec, hne, hq⟩
    rw [hdec] at h
    exact findCapture_ne_none l r hne hq h
  · intro h
    rcases hf : findCapture pre s with _ | v
    · rfl
    · obtain ⟨⟨l, r, hdec⟩, hne, hq⟩ := findCapture_sound hf
      exact absurd ⟨l, v, r, hdec, hne, hq⟩ h

/-- Helper: under `resolverPatternFree`, the resolver returns the
simplified markup. -/
theorem identifier_fallback_of_patternFree (m : String) (hf : resolverPatternFree m) :
    getElementIdentifier m = simplifyHtml m := by
  obtain ⟨hid, hname, hpt⟩ := hf
  rw [getElementIdentifier, findCapture_none_iff.mpr hid,
    identifierFromName, findCapture_none_iff.mpr hname, identifierFromPair]
  rcases hpt with hp | ht
  · rw [findCapture_none_iff.mpr hp]
  · rw [findCapture_none_iff.mpr ht]
    rcases findCapture ("placeholder=\"").data m.data with _ | p <;> rfl

/-! ## C3: identity resolution priority order -/

/-- C3 counterexample: the claim reads the rules as tests for an `id`
(resp. `name`) attribute being present, but the code scans the raw string:
in `<span valid="true">hi</span>` no `id` attribute is present (the parsed
element's attribute list is exactly `[("valid", "true")]`), yet the
identity is `id:true` taken from inside `valid="true"`, not the simplified
markup; consequently two elements with no identifying attributes can share
an identity while their simplified markups differ. -/
theorem C3_resolver_counterexample :
    getElementIdentifier "<span valid=\"true\">hi</span>" = "id:true" ∧
    parseFragment ("<span valid=\"true\">hi</span>").data
      = some [Node.elem "span" [("valid", "true")] "hi"] ∧
    getElementIdentifier "<span valid=\"true\">hi</span>"
      = getElementIdentifier "<span valid=\"true\">bye</span>" ∧
    simplifyHtml "<span valid=\"true\">hi</span>" ≠ simplifyHtml "<span valid=\"true\">bye</span>" :=
  ⟨rfl, rfl, rfl, by decide⟩

/-- C3 (amended): `identify(m)` is determined by the first matching rule in
priority order over substring patterns of the raw markup: if `id="v"` (with
`v` nonempty and quote-free) occurs anywhere in `m`, the identity is
`id:` + the capture of the leftmost such occurrence (`FirstCapture`, which
determines the capture uniquely); else if `name="v"` occurs it is `name:` +
that leftmost capture; else if both `type="v"` and `placeholder="w"` occur
it is `type-placeholder:` + type + `-` + placeholder, each the leftmost
capture of its pattern; else it is the simplified markup, so two
pattern-free markup strings share an identity exactly when their simplified
markup is textually identical. -/
theorem C3_resolver_priority :
    (∀ m : String, HasCapture ("id=\"").data m.data →
      ∃ v, FirstCapture ("id=\"").data v m.data ∧
        getElementIdentifier m = "id:" ++ v.asString ∧
        ∀ w, FirstCapture ("id=\"").data w m.data → w = v) ∧
    (∀ m : String, ¬ HasCapture ("id=\"").data m.data →
      HasCapture ("name=\"").data m.data →
      ∃ v, FirstCapture ("name=\"").data v m.data ∧
        getElementIdentifier m = "name:" ++ v.asString ∧
        ∀ w, FirstCapture ("name=\"").data w m.data → w = v) ∧
    (∀ m : String, ¬ HasCapture ("id=\"").data m.data →
      ¬ HasCapture ("name=\"").data m.data →
      HasCapture ("placeholder=\"").data m.data →
      HasCapture ("type=\"").data m.data →
      ∃ p t, FirstCapture ("placeholder=\"").data p m.data ∧
        FirstCapture ("type=\"").data t m.data ∧
        getElementIdentifier m
          = "type-placeholder:" ++ t.asString ++ "-" ++ p.asString ∧
        (∀ w, FirstCapture ("placeholder=\"").data w m.data → w = p) ∧
        (∀ w, FirstCapture ("type=\"").data w m.data → w = t)) ∧
    (∀ m : String, resolverPatternFree m → getElementIdentifier m = simplifyHtml m) ∧
    (∀ m1 m2 : String, resolverPatternFree m1 → resolverPatternFree m2 →
      (getElementIdentifier m1 = getElementIdentifier m2
        ↔ simplifyHtml m1 = simplifyHtml m2)) := by
  refine ⟨?_, ?_, ?_, identifier_fallback_of_patternFree, ?_⟩
  · intro m h
    rcases hf : findCapture ("id=\"").data m.data with _ | v
    · exact absurd h (findCapture_none_iff.mp hf)
    · have hfst := findCapture_first hf
      exact ⟨v, hfst, by rw [getElementIdentifier, hf],
        fun w hw => FirstCapture_unique hw hfst⟩
  · intro m hid h
    rcases hf : findCapture ("name=\"").data m.data with _ | v
    · exact absurd h (findCapture_none_iff.mp hf)
    · have hfst := findCapture_first hf
      refine ⟨v, hfst, ?_, fun w hw => FirstCapture_unique hw hfst⟩
      rw [getElementIdentifier, findCapture_none_iff.mpr hid, identifierFromName, hf]
  · intro m hid hname hph hty
    rcases hp : findCapture ("placeholder=\"").data m.data with _ | p
    · exact absurd hph (findCapture_none_iff.mp hp)
    · rcases ht : findCapture ("type=\"").data m.data with _ | t
      · exact absurd hty (findCapture_none_iff.mp ht)
      · have hfp := findCapture_first hp
        have hft := findCapture_first ht
        refine ⟨p, t, hfp, hft, ?_, fun w hw => FirstCapture_unique hw hfp,
          fun w hw => FirstCapture_unique hw hft⟩
        rw [getElementIdentifier, findCapture_none_iff.mpr hid, identifierFromName,
          findCapture_none_iff.mpr hname, identifierFromPair, hp, ht]
  · intro m1 m2 h1 h2
    rw [identifier_fallback_of_patternFree m1 h1, identifier_fallback_of_patternFree m2 h2]

/-- Witness for C3 (amended): the first rule fires on a concrete markup
with a real `id` attribute, and the identity carries its unique leftmost
capture. -/
theorem C3_resolver_priority_witness :
    HasCapture ("id=\"").data ("<a id=\"z\">t</a>").data ∧
    ∃ v, FirstCapture ("id=\"").data v ("<a id=\"z\">t</a>").data ∧
      getElementIdentifier "<a id=\"z\">t</a>" = "id:" ++ v.asString ∧
      ∀ w, FirstCapture ("id=\"").data w ("<a id=\"z\">t</a>").data → w = v := by
  have h : HasCapture ("id=\"").data ("<a id=\"z\">t</a>").data :=
    ⟨("<a ").data, ("z").data, (">t</a>").data, by decide, by decide, by decide⟩
  exact ⟨h, C3_resolver_priority.1 "<a id=\"z\">t</a>" h⟩

/-! ## C10: empty-valued attributes are treated as absent -/

/-- C10 counterexample: the claim covers every markup whose `id` attribute
is empty, but an empty `id` attribute does not guarantee the absence of an
id-based identity: in `<input id="" data-id="y">` the parsed `id` attribute
has the empty value (see the parse fact), yet the substring `id="y"` inside
`data-id="y"` matches the id regex and the resolver returns `id:y` rather
than falling through to the next rule. -/
theorem C10_empty_id_counterexample :
    parseFragment ("<input id=\"\" data-id=\"y\">").data
      = some [Node.elem "input" [("id", ""), ("data-id", "y")] ""] ∧
    getElementIdentifier "<input id=\"\" data-id=\"y\">" = "id:y" :=
  ⟨rfl, rfl⟩

/-- C10 (amended): the `[^"]+` capture groups require a nonempty value, so
an empty-valued `id` attribute never itself produces an id-based identity;
whenever `m` contains no nonempty `id="v"` capture at all (in particular
when its only `id` occurrence is `id=""` and no other substring forms an
id pattern) resolution falls through to the `name` rule, and likewise an
empty `name` falls through to the `type`/`placeholder` rule and an empty
`placeholder` to the simplified-markup fallback, under the corresponding
pattern-free conditions; on `<input id="" name="x">` the resolver returns
`name:x`, on `<input id="" placeholder="p" type="text">` it returns
`type-placeholder:text-p`, and on `<input type="text" placeholder="">` it
returns the simplified markup. -/
theorem C10_empty_attr_falls_through :
    (∀ m : String, ¬ HasCapture ("id=\"").data m.data →
      getElementIdentifier m = identifierFromName m) ∧
    (∀ m : String, ¬ HasCapture ("name=\"").data m.data →
      identifierFromName m = identifierFromPair m) ∧
    (∀ m : String, ¬ HasCapture ("placeholder=\"").data m.data →
      identifierFromPair m = simplifyHtml m) ∧
    getElementIdentifier "<input id=\"\" name=\"x\">" = "name:x" ∧
    getElementIdentifier "<input id=\"\" placeholder=\"p\" type=\"text\">"
      = "type-placeholder:text-p" ∧
    getElementIdentifier "<input type=\"text\" placeholder=\"\">"
      = simplifyHtml "<input type=\"text\" placeholder=\"\">" := by
  refine ⟨?_, ?_, ?_, rfl, rfl, rfl⟩
  · intro m h
    rw [getElementIdentifier, findCapture_none_iff.mpr h]
  · intro m h
    rw [identifierFromName, findCapture_none_iff.mpr h]
  · intro m h
    rw [identifierFromPair, findCapture_none_iff.mpr h]

/-- Witness for C10: the fall-through hypothesis holds at the concrete
markup whose only `id` attribute is empty. -/
theorem C10_empty_attr_falls_through_witness :
    ¬ HasCapture ("id=\"").data ("<input id=\"\" name=\"x\">").data ∧
    getElementIdentifier "<input id=\"\" name=\"x\">"
      = identifierFromName "<input id=\"\" name=\"x\">" := by
  have h : ¬ HasCapture ("id=\"").data ("<input id=\"\" name=\"x\">").data :=
    findCapture_none_iff.mp rfl
  exact ⟨h, C10_empty_attr_falls_through.1 "<input id=\"\" name=\"x\">" h⟩

/-! ## C4 and C6: the attribute allow-list -/

theorem filterMap_if_eq_map_filter {α β : Type} (q : α → Bool) (f : α → β) :
    ∀ l : List α,
      l.filterMap (fun x => if q x then some (f x) else none) = (l.filter q).map f := by
  intro l
  induction l with
  | nil => rfl
  | cons x xs ih =>
    cases hq : q x <;> simp [List.filterMap_cons, List.filter_cons, hq, ih]

theorem attrKeep_eq_specKeep (p : String × String) : attrKeep p.1 p.2 = specKeep p := by
  simp [attrKeep, specKeep, MAX_ATTR_LENGTH]

theorem filterAttributes_eq_spec (attrs : List (String × String)) :
    filterAttributes attrs = specAttrText attrs := by
  unfold filterAttributes specAttrText
  have h1 : attrs.filterMap
      (fun p => if attrKeep p.1 p.2 then some (p.1 ++ "=\"" ++ p.2 ++ "\"") else none)
      = (attrs.filter specKeep).map fmtAttr := by
    rw [← filterMap_if_eq_map_filter specKeep fmtAttr attrs]
    apply List.filterMap_congr
    intro p _
    rw [attrKeep_eq_specKeep]
    rfl
  rw [h1]
  cases hk : attrs.filter specKeep with
  | nil => simp
  | cons k ks => simp

theorem attrKeep_eq_false_of_not_allowed {a : String} (ha : ¬ allowedAttrName a)
    (v : String) : attrKeep a v = false := by
  unfold allowedAttrName at ha
  push_neg at ha
  obtain ⟨ha1, ha2, ha3⟩ := ha
  have hd : strStarts "data" a = false := by
    revert ha2; cases strStarts "data" a <;> simp
  have ht : strStarts "test" a = false := by
    revert ha3; cases strStarts "test" a <;> simp
  have hc : ALLOWED_ATTRS.contains a = false := by simp [ha1]
  unfold attrKeep
  rw [hc, hd, ht]
  rfl

theorem filterAttributes_skip {a v : String} (hk : attrKeep a v = false)
    (l r : List (String × String)) :
    filterAttributes (l ++ (a, v) :: r) = filterAttributes (l ++ r) := by
  unfold filterAttributes
  rw [List.filterMap_append, List.filterMap_append, List.filterMap_cons]
  have hfa : (if attrKeep (a, v).1 (a, v).2 = true
      then some ((a, v).1 ++ "=\"" ++ (a, v).2 ++ "\"") else none) = none := by
    simp [hk]
  rw [hfa]

/-- C4: for every markup fragment that parses to a single element, the
simplified output keeps the tag name and exactly the attributes whose name
is in the allow-list `{id, class, name, type, href, placeholder, role}` or
starts with `data` or `test` and whose value length is at most 40
characters (in original order), and preserves the element's trimmed inner
text. -/
theorem C4_simplify_allowlist (m t itext : String) (attrs : List (String × String))
    (h : parseFragment m.data = some [Node.elem t attrs itext]) :
    simplifyHtml m = "<" ++ t ++ specAttrText attrs ++ ">" ++ trimStr itext ++ "</" ++ t ++ ">" := by
  unfold simplifyHtml
  rw [h]
  show simplifyTag t attrs itext = _
  unfold simplifyTag
  rw [filterAttributes_eq_spec]

/-- Witness for C4: the spec's scenario, where the over-long `class` value
is dropped and `id="username"` survives. -/
theorem C4_simplify_allowlist_witness :
    simplifyHtml "<input id=\"username\" class=\"very-long-class-name-that-exceeds-forty-characters-limit\">"
      = "<input id=\"username\"></input>" := by
  have h := C4_simplify_allowlist
    "<input id=\"username\" class=\"very-long-class-name-that-exceeds-forty-characters-limit\">"
    "input" ""
    [("id", "username"), ("class", "very-long-class-name-that-exceeds-forty-characters-limit")]
    rfl
  exact h.trans (by decide)

/-- C6 counterexample: `<span>hi</span>` and `<span valid="true">hi</span>`
differ only in the attribute `valid` (outside the allow-list, as the parse
facts show), yet the resolver gives them different identities, because the
substring `id="true"` inside `valid="true"` triggers the id rule. -/
theorem C6_identity_counterexample :
    parseFragment ("<span>hi</span>").data = some [Node.elem "span" [] "hi"] ∧
    parseFragment ("<span valid=\"true\">hi</span>").data
      = some [Node.elem "span" [("valid", "true")] "hi"] ∧
    ¬ allowedAttrName "valid" ∧
    getElementIdentifier "<span>hi</span>"
      ≠ getElementIdentifier "<span valid=\"true\">hi</span>" :=
  ⟨rfl, rfl, by unfold allowedAttrName; decide, by decide⟩

/-- C6 (amended): for markup strings that differ only in an attribute
outside the allow-list, the resolver returns the same identity provided
none of the resolver's substring patterns (`id="v"`, `name="v"`,
`placeholder="v"` with `type="v"`, `v` nonempty) occurs in either string:
both then fall through to the simplified markup, which drops the extra
attribute. -/
theorem C6_identity_outside_allowlist (m1 m2 t itext : String)
    (l r : List (String × String)) (a v : String)
    (h1 : parseFragment m1.data = some [Node.elem t (l ++ r) itext])
    (h2 : parseFragment m2.data = some [Node.elem t (l ++ (a, v) :: r) itext])
    (ha : ¬ allowedAttrName a)
    (hf1 : resolverPatternFree m1) (hf2 : resolverPatternFree m2) :
    getElementIdentifier m1 = getElementIdentifier m2 := by
  rw [identifier_fallback_of_patternFree m1 hf1, identifier_fallback_of_patternFree m2 hf2]
  unfold simplifyHtml
  rw [h1, h2]
  show simplifyTag t (l ++ r) itext = simplifyTag t (l ++ (a, v) :: r) itext
  unfold simplifyTag
  rw [filterAttributes_skip (attrKeep_eq_false_of_not_allowed ha v) l r]

/-- Witness for C6 (amended): concrete pattern-free pair differing only in
the non-allow-listed attribute `foo`. -/
theorem C6_identity_outside_allowlist_witness :
    getElementIdentifier "<span>hi</span>"
      = getElementIdentifier "<span foo=\"bar\">hi</span>" := by
  refine C6_identity_outside_allowlist "<span>hi</span>" "<span foo=\"bar\">hi</span>"
    "span" "hi" [] [] "foo" "bar" rfl rfl (by unfold allowedAttrName; decide) ?_ ?_
  · exact ⟨findCapture_none_iff.mp rfl, findCapture_none_iff.mp rfl,
      Or.inl (findCapture_none_iff.mp rfl)⟩
  · exact ⟨findCapture_none_iff.mp rfl, findCapture_none_iff.mp rfl,
      Or.inl (findCapture_none_iff.mp rfl)⟩

/-! ## C2, C5, C8: the stage ledger state machine -/

theorem ensureKey_nil {α : Type} (k : String) : ensureKey ([] : PageMap α) k = [(k, [])] := rfl

theorem lookupList_ensure_nil {α : Type} (k url : String) :
    lookupList (ensureKey ([] : PageMap α) k) url = [] := by
  rw [ensureKey_nil]
  by_cases h : k = url <;> simp [lookupList, h]

theorem ensureKey_of_contains {α : Type} {m : PageMap α} {k : String}
    (h : containsKey m k = true) : ensureKey m k = m := by
  unfold ensureKey
  rw [if_pos h]

/-- C2: on a genuine stage switch, the recorder appends a StageRecord
carrying the old stage and the flattened per-page event histories (in
per-page insertion order, pages in map order) exactly when that flattened
sequence is non-empty, empties every page's unified event history, leaves
the per-page click and input maps unchanged (the current URL being already
initialized there, as `openInitialPage`/`handleUrlChange` guarantee), and
sets the current stage to the new stage. -/
theorem C2_switchStage_transition (s : RecorderState) (key : StageKey)
    (hne : stageMap key ≠ s.currentStage)
    (hc : containsKey s.pageClicksMap s.currentUrl = true)
    (hi : containsKey s.pageInputsMap s.currentUrl = true) :
    (switchStage key s).stageEvents =
      (if collectAllEvents s.pageEventsMap = [] then s.stageEvents
       else s.stageEvents
         ++ [{ stage := s.currentStage, events := collectAllEvents s.pageEventsMap }]) ∧
    (∀ url, lookupList (switchStage key s).pageEventsMap url = []) ∧
    (switchStage key s).pageClicksMap = s.pageClicksMap ∧
    (switchStage key s).pageInputsMap = s.pageInputsMap ∧
    (switchStage key s).currentStage = stageMap key ∧
    (switchStage key s).currentUrl = s.currentUrl := by
  simp only [switchStage, initializePageMaps]
  rw [if_neg hne]
  refine ⟨?_, ?_, ?_, ?_, rfl, rfl⟩
  · rcases hcol : collectAllEvents s.pageEventsMap with _ | ⟨e, es⟩ <;> simp [hcol]
  · intro url
    exact lookupList_ensure_nil s.currentUrl url
  · exact ensureKey_of_contains hc
  · exact ensureKey_of_contains hi

/-- Witness for C2: a concrete genuine switch from GIVEN to WHEN with one
recorded event. -/
theorem C2_switchStage_transition_witness :
    stageMap StageKey.W ≠ c2exState.currentStage ∧
    (switchStage StageKey.W c2exState).stageEvents
      = [{ stage := Stage.GIVEN, events := [exClick] }] ∧
    lookupList (switchStage StageKey.W c2exState).pageEventsMap "u" = [] ∧
    (switchStage StageKey.W c2exState).pageClicksMap = c2exState.pageClicksMap ∧
    (switchStage StageKey.W c2exState).currentStage = Stage.WHEN := by
  obtain ⟨h1, h2, h3, _, h5, _⟩ :=
    C2_switchStage_transition c2exState StageKey.W (by decide) rfl rfl
  exact ⟨by decide, h1.trans (by decide), h2 "u", h3, h5⟩

/-- C5: the code's `printRecordedElements` is not idempotent — it never
clears the page histories, so calling it a second time immediately after
the first appends a duplicate of the final StageRecord whenever the
histories are non-empty, contradicting the claim that a second finalize is
a no-op. -/
theorem C5_finalize_not_idempotent :
    (finalizeLedger c5exState).stageEvents
      = [{ stage := Stage.THEN, events := [exClick] }] ∧
    (finalizeLedger (finalizeLedger c5exState)).stageEvents
      = [{ stage := Stage.THEN, events := [exClick] },
         { stage := Stage.THEN, events := [exClick] }] ∧
    finalizeLedger (finalizeLedger c5exState) ≠ finalizeLedger c5exState :=
  ⟨rfl, rfl, by decide⟩

/-- C8: switching to the already-current stage is a complete no-op (no
ledger append, no clearing, no stage change), and in particular a second
consecutive `switchStage(W)` changes nothing. -/
theorem C8_sameStage_noop :
    (∀ (s : RecorderState) (key : StageKey),
      stageMap key = s.currentStage → switchStage key s = s) ∧
    (∀ s : RecorderState,
      switchStage StageKey.W (switchStage StageKey.W s) = switchStage StageKey.W s) := by
  have h1 : ∀ (s : RecorderState) (key : StageKey),
      stageMap key = s.currentStage → switchStage key s = s := by
    intro s key h
    simp only [switchStage]
    rw [if_pos h]
  refine ⟨h1, ?_⟩
  intro s
  apply h1
  by_cases h : stageMap StageKey.W = s.currentStage
  · rw [h1 s StageKey.W h, h]
  · simp only [switchStage, initializePageMaps]
    rw [if_neg h]

/-- Witness for C8: a same-stage switch on a concrete state, and the
concrete double-switch. -/
theorem C8_sameStage_noop_witness :
    stageMap StageKey.G = c8exState.currentStage ∧
    switchStage StageKey.G c8exState = c8exState ∧
    switchStage StageKey.W (switchStage StageKey.W c8exState)
      = switchStage StageKey.W c8exState :=
  ⟨rfl, C8_sameStage_noop.1 c8exState StageKey.G rfl, C8_sameStage_noop.2 c8exState⟩

/-! ## Lemmas: the dedup loop of the renderer -/

theorem lookupKey_set (m : List (String × RecordedEvent)) (k : String) (e : RecordedEvent)
    (j : String) :
    lookupKey (setKey m k e) j = if k = j then some e else lookupKey m j := by
  induction m with
  | nil =>
    unfold setKey lookupKey
    by_cases h : k = j <;> simp [h, lookupKey]
  | cons p rest ih =>
    obtain ⟨k', e'⟩ := p
    unfold setKey
    by_cases hk : k' = k
    · rw [if_pos hk]
      unfold lookupKey
      by_cases hj : k = j
      · rw [if_pos hj, if_pos hj]
      · rw [if_neg hj, if_neg hj]
        subst hk
        unfold lookupKey
        rw [if_neg hj]
    · rw [if_neg hk]
      unfold lookupKey
      by_cases hj : k' = j
      · rw [if_pos hj, if_pos hj]
        have : ¬ k = j := fun h => hk (hj ▸ h.symm ▸ rfl)
        rw [if_neg this]
      · rw [if_neg hj, if_neg hj, ih]

theorem lastWith_cons (k : String) (e : RecordedEvent) (rest : List RecordedEvent) :
    lastWith k (e :: rest)
      = match lastWith k rest with
        | some r => some r
        | none => if idOf e = k then some e else none := rfl

theorem lookup_buildDedup_aux (evs : List RecordedEvent) :
    ∀ (order : List String) (m : List (String × RecordedEvent)) (j : String),
      lookupKey (evs.foldl buildStep (order, m)).2 j
        = match lastWith j evs with
          | some e => some e
          | none => lookupKey m j := by
  induction evs with
  | nil => intro order m j; simp [lastWith]
  | cons e rest ih =>
    intro order m j
    rw [List.foldl_cons,
      show buildStep (order, m) e
        = ((if (lookupKey m (idOf e)).isSome then order else order ++ [idOf e]),
           setKey m (idOf e) e) from rfl,
      ih, lastWith_cons]
    cases hl : lastWith j rest
    · rw [lookupKey_set]
      by_cases hid : idOf e = j <;> simp [hid]
    · rfl

theorem lookup_buildDedup (evs : List RecordedEvent) (j : String) :
    lookupKey (buildDedup evs).2 j = lastWith j evs := by
  unfold buildDedup
  rw [lookup_buildDedup_aux]
  cases lastWith j evs <;> rfl

theorem dedupFirst_cons (x : String) (xs : List String) :
    dedupFirst (x :: xs) = x :: dedupFirst (xs.filter (fun y => y != x)) := by
  rw [dedupFirst]

theorem order_buildDedup_aux (evs : List RecordedEvent) :
    ∀ (order : List String) (m : List (String × RecordedEvent)),
      (∀ j, (lookupKey m j).isSome = true ↔ j ∈ order) →
      (evs.foldl buildStep (order, m)).1
        = order ++ dedupFirst ((evs.map idOf).filter (fun k => decide (k ∉ order))) := by
  induction evs with
  | nil => intro order m _; simp [dedupFirst]
  | cons e rest ih =>
    intro order m hinv
    rw [List.foldl_cons,
      show buildStep (order, m) e
        = ((if (lookupKey m (idOf e)).isSome then order else order ++ [idOf e]),
           setKey m (idOf e) e) from rfl]
    by_cases hmem : idOf e ∈ order
    · rw [if_pos ((hinv _).mpr hmem)]
      have hinv2 : ∀ j, (lookupKey (setKey m (idOf e) e) j).isSome = true ↔ j ∈ order := by
        intro j
        rw [lookupKey_set]
        by_cases hj : idOf e = j
        · subst hj; simp [hmem]
        · rw [if_neg hj]; exact hinv j
      rw [ih order (setKey m (idOf e) e) hinv2]
      congr 2
      rw [show List.map idOf (e :: rest) = idOf e :: List.map idOf rest from rfl,
        List.filter_cons]
      have hd : decide (idOf e ∉ order) = false := by simp [hmem]
      rw [hd]
      simp
    · rw [if_neg (fun h => hmem ((hinv _).mp h))]
      have hinv2 : ∀ j, (lookupKey (setKey m (idOf e) e) j).isSome = true
          ↔ j ∈ order ++ [idOf e] := by
        intro j
        rw [lookupKey_set]
        by_cases hj : idOf e = j
        · subst hj; simp
        · rw [if_neg hj, hinv]
          constructor
          · exact fun h => List.mem_append.mpr (Or.inl h)
          · intro h
            rcases List.mem_append.mp h with h | h
            · exact h
            · exact absurd (List.mem_singleton.mp h) (fun hh => hj hh.symm)
      rw [ih (order ++ [idOf e]) (setKey m (idOf e) e) hinv2, List.append_assoc]
      congr 1
      rw [List.singleton_append,
        show List.map idOf (e :: rest) = idOf e :: List.map idOf rest from rfl,
        List.filter_cons]
      have hd : decide (idOf e ∉ order) = true := by simp [hmem]
      rw [hd]
      simp only [if_pos]
      rw [dedupFirst_cons]
      congr 1
      rw [List.filter_filter]
      congr 1
      apply List.filter_congr
      intro x _
      by_cases h1 : x ∈ order <;> by_cases h2 : x = idOf e <;>
        simp [h1, h2, List.mem_append]

theorem order_buildDedup (evs : List RecordedEvent) :
    (buildDedup evs).1 = dedupFirst (evs.map idOf) := by
  unfold buildDedup
  rw [order_buildDedup_aux evs [] [] (fun j => by simp [lookupKey])]
  rw [List.nil_append]
  congr 1
  apply List.filter_eq_self.mpr
  intro a _
  simp

theorem printLoop_eq (m : List (String × RecordedEvent)) :
    ∀ (ks : List String) (n : Nat),
      printLoop m n ks
        = numberFrom n (ks.filterMap (fun k => (lookupKey m k).bind lineOf)) := by
  intro ks
  induction ks with
  | nil => intro n; rfl
  | cons k rest ih =>
    intro n
    rw [printLoop]
    cases hb : (lookupKey m k).bind lineOf with
    | none => rw [List.filterMap_cons, hb, ih]
    | some body =>
      rw [List.filterMap_cons, hb, numberFrom]
      show (toString n ++ ". " ++ body) :: printLoop m (n + 1) rest
        = (toString n ++ ". " ++ body)
          :: numberFrom (n + 1) (rest.filterMap (fun k => (lookupKey m k).bind lineOf))
      rw [ih]

/-- Characterization of one stage section's numbered lines: first-seen
order of identities, each rendered from its last event, numbered
consecutively from 1 over the lines actually printed. -/
theorem printStageEvents_eq (evs : List RecordedEvent) :
    printStageEvents evs
      = numberFrom 1 ((dedupFirst (evs.map idOf)).filterMap
          (fun k => (lastWith k evs).bind lineOf)) := by
  unfold printStageEvents
  rw [printLoop_eq, order_buildDedup]
  congr 1
  apply List.filterMap_congr
  intro k _
  rw [lookup_buildDedup]

theorem mem_dedupFirst {a : String} : ∀ {l : List String}, a ∈ dedupFirst l ↔ a ∈ l := by
  intro l
  induction l using dedupFirst.induct with
  | case1 => simp [dedupFirst]
  | case2 x xs ih =>
    rw [dedupFirst_cons]
    by_cases h : a = x
    · simp [h]
    · simp only [List.mem_cons, h, false_or, ih, List.mem_filter]
      constructor
      · exact fun hh => hh.1
      · intro hh
        exact ⟨hh, by simp [h]⟩

theorem dedupFirst_filter (k : String) :
    ∀ l : List String,
      dedupFirst (l.filter (fun y => y != k)) = (dedupFirst l).filter (fun y => y != k) := by
  intro l
  induction l using dedupFirst.induct with
  | case1 => simp [dedupFirst]
  | case2 x xs ih =>
    by_cases hx : x = k
    · subst hx
      rw [List.filter_cons]
      simp only [bne_self_eq_false]
      rw [if_neg (by simp), dedupFirst_cons, List.filter_cons]
      simp only [bne_self_eq_false]
      rw [if_neg (by simp), ← ih]
      congr 1
      rw [List.filter_filter]
      apply List.filter_congr
      intro a _
      simp
    · rw [List.filter_cons]
      have hb : (x != k) = true := by simp [hx]
      rw [hb]
      simp only [if_pos]
      rw [dedupFirst_cons, dedupFirst_cons, List.filter_cons, hb]
      simp only [if_pos]
      congr 1
      rw [← ih]
      congr 1
      rw [List.filter_filter, List.filter_filter]
      apply List.filter_congr
      intro a _
      exact Bool.and_comm _ _

theorem lastWith_filter_ne {k j : String} (hj : j ≠ k) :
    ∀ evs : List RecordedEvent,
      lastWith j (evs.filter (fun x => idOf x != k)) = lastWith j evs := by
  intro evs
  induction evs with
  | nil => rfl
  | cons e rest ih =>
    rw [List.filter_cons]
    by_cases he : idOf e = k
    · rw [show (idOf e != k) = false from by simp [he]]
      simp only [Bool.false_eq_true, if_false]
      rw [ih, lastWith_cons]
      cases hl : lastWith j rest
      · show (none : Option RecordedEvent) = if idOf e = j then some e else none
        rw [if_neg (fun hh => hj (hh.symm.trans he))]
      · rfl
    · rw [show (idOf e != k) = true from by simp [he], if_pos rfl]
      rw [lastWith_cons, lastWith_cons, ih]

theorem lastWith_isSome_mem {k : String} :
    ∀ {evs : List RecordedEvent}, (lastWith k evs).isSome = true → k ∈ evs.map idOf := by
  intro evs
  induction evs with
  | nil => intro h; cases h
  | cons x rest ih =>
    intro h
    rw [lastWith_cons] at h
    rcases hl : lastWith k rest with _ | r
    · rw [hl] at h
      change (if idOf x = k then some x else none).isSome = true at h
      by_cases hx : idOf x = k
      · simp [List.map_cons, hx]
      · rw [if_neg hx] at h; cases h
    · have : k ∈ rest.map idOf := ih (by rw [hl]; rfl)
      simp [this]

theorem numberFrom_mem {s : String} :
    ∀ {l : List String} (i : Nat), s ∈ l → ∃ n : Nat, (toString n ++ ". " ++ s) ∈ numberFrom i l := by
  intro l
  induction l with
  | nil => intro i h; cases h
  | cons x rest ih =>
    intro i h
    rcases List.mem_cons.mp h with h | h
    · subst h
      exact ⟨i, by rw [numberFrom]; exact List.mem_cons_self _ _⟩
    · obtain ⟨n, hn⟩ := ih (i + 1) h
      exact ⟨n, by rw [numberFrom]; exact List.mem_cons_of_mem _ hn⟩

theorem filterMap_eq_filterMap_filter {α β : Type} (p : α → Bool) (g : α → Option β) :
    ∀ l : List α, (∀ x ∈ l, p x = false → g x = none) →
      l.filterMap g = (l.filter p).filterMap g := by
  intro l
  induction l with
  | nil => intro _; rfl
  | cons x rest ih =>
    intro h
    rw [List.filterMap_cons, List.filter_cons]
    cases hp : p x
    · rw [h x (List.mem_cons_self _ _) hp]
      simp only [Bool.false_eq_true, if_false]
      exact ih (fun y hy => h y (List.mem_cons_of_mem _ hy))
    · simp only [if_pos]
      rw [List.filterMap_cons, ih (fun y hy => h y (List.mem_cons_of_mem _ hy))]

/-! ## C1, C7, C9: the report renderer -/

/-- C1: for each stage section the renderer deduplicates the concatenated
event sequence by Identity Resolver key, emitting one numbered line per
surviving identity in first-seen order, with content taken from the last
event of that identity; a stage's section is its header followed by those
lines of the concatenation of its StageRecords' event sequences in ledger
order; and on [click(id=a, text=X), click(id=a, text=Y)] exactly one line
is emitted, numbered 1., showing Y's simplified markup. -/
theorem C1_render_dedup :
    (∀ evs : List RecordedEvent,
      printStageEvents evs
        = numberFrom 1 ((dedupFirst (evs.map idOf)).filterMap
            (fun k => (lastWith k evs).bind lineOf))) ∧
    (∀ (ledger : List StageEvents) (st : Stage),
      (ledger.filter (fun se => se.stage == st)).isEmpty = false →
      sectionFor ledger st
        = ("\n=== " ++ stageName st ++ " ===")
          :: printStageEvents (((ledger.filter (fun se => se.stage == st)).map
              (fun se => se.events)).flatten)) ∧
    printStageEvents
      [{ type := .click, html := "<button id=\"a\">X</button>" },
       { type := .click, html := "<button id=\"a\">Y</button>" }]
      = ["1. <button id=\"a\">Y</button>"] := by
  refine ⟨printStageEvents_eq, ?_, by decide⟩
  intro ledger st h
  unfold sectionFor
  rw [if_neg (by simp [h])]

/-- Witness for C1: the section equation at a concrete one-record ledger. -/
theorem C1_render_dedup_witness :
    (([{ stage := Stage.WHEN, events := [exClick] }] : List StageEvents).filter
      (fun se => se.stage == Stage.WHEN)).isEmpty = false ∧
    sectionFor [{ stage := Stage.WHEN, events := [exClick] }] Stage.WHEN
      = ("\n=== " ++ stageName Stage.WHEN ++ " ===")
        :: printStageEvents ((([{ stage := Stage.WHEN, events := [exClick] }]
            : List StageEvents).filter (fun se => se.stage == Stage.WHEN)).map
              (fun se => se.events)).flatten :=
  ⟨rfl, C1_render_dedup.2.1 [{ stage := Stage.WHEN, events := [exClick] }] Stage.WHEN rfl⟩

/-- C7: an input event whose value is the empty string (or missing) never
contributes to the rendered output: if it is the surviving (last) event of
its identity, the section renders exactly as if that identity's events were
absent (so it neither prints nor consumes a line number); and a click that
is the last event of its identity always yields a numbered line, so an
earlier empty-valued input does not suppress it. -/
theorem C7_empty_value_suppression :
    (∀ (evs : List RecordedEvent) (k : String) (e : RecordedEvent),
      lastWith k evs = some e → e.type = EventType.input → e.value.getD "" = "" →
      printStageEvents evs = printStageEvents (evs.filter (fun x => idOf x != k))) ∧
    (∀ (evs : List RecordedEvent) (k : String) (c : RecordedEvent),
      lastWith k evs = some c → c.type = EventType.click →
      ∃ n : Nat, (toString n ++ ". " ++ simplifyHtml c.html) ∈ printStageEvents evs) := by
  constructor
  · intro evs k e hl ht hv
    rw [printStageEvents_eq, printStageEvents_eq]
    have hmap : ∀ l : List RecordedEvent, (l.filter (fun x => idOf x != k)).map idOf
        = (l.map idOf).filter (fun y => y != k) := by
      intro l
      induction l with
      | nil => rfl
      | cons x xs ih2 =>
        by_cases hx : idOf x = k <;>
          simp [List.filter_cons, List.map_cons, hx, ih2]
    rw [hmap, dedupFirst_filter]
    congr 1
    have hgnone : (lastWith k evs).bind lineOf = none := by
      rw [hl]
      simp only [Option.some_bind]
      unfold lineOf
      rw [ht, hv]
      rfl
    have hside : ∀ x ∈ dedupFirst (evs.map idOf), (x != k) = false →
        (fun j => (lastWith j evs).bind lineOf) x = none := by
      intro x _ hx
      have hxk : x = k := by
        by_contra hc
        rw [show (x != k) = true from by simp [hc]] at hx
        cases hx
      rw [hxk]
      exact hgnone
    rw [filterMap_eq_filterMap_filter (fun y => y != k)
      (fun j => (lastWith j evs).bind lineOf) (dedupFirst (evs.map idOf)) hside]
    apply List.filterMap_congr
    intro j hj
    have hjk : j ≠ k := by
      intro hc
      have hmem := (List.mem_filter.mp hj).2
      rw [hc] at hmem
      simp at hmem
    rw [lastWith_filter_ne hjk]
  · intro evs k c hl ht
    rw [printStageEvents_eq]
    have hmem : k ∈ dedupFirst (evs.map idOf) :=
      mem_dedupFirst.mpr (lastWith_isSome_mem (by rw [hl]; rfl))
    have hline : (lastWith k evs).bind lineOf = some (simplifyHtml c.html) := by
      rw [hl]
      simp only [Option.some_bind]
      unfold lineOf
      rw [ht]
    exact numberFrom_mem 1 (List.mem_filterMap.mpr ⟨k, hmem, hline⟩)

/-- Witness for C7: a sole empty-valued input renders as if absent, and an
empty-valued input followed by a click on the same identity does not
suppress the click's line. -/
theorem C7_empty_value_suppression_witness :
    printStageEvents [exEmptyInput]
      = printStageEvents
          (([exEmptyInput] : List RecordedEvent).filter (fun x => idOf x != "id:q")) ∧
    ∃ n : Nat,
      (toString n ++ ". " ++ simplifyHtml "<button id=\"a\">Y</button>")
        ∈ printStageEvents
            [{ type := EventType.input, html := "<button id=\"a\">X</button>", value := some "" },
             { type := EventType.click, html := "<button id=\"a\">Y</button>" }] :=
  ⟨C7_empty_value_suppression.1 [exEmptyInput] "id:q" exEmptyInput rfl rfl rfl,
    C7_empty_value_suppression.2
      [{ type := EventType.input, html := "<button id=\"a\">X</button>", value := some "" },
       { type := EventType.click, html := "<button id=\"a\">Y</button>" }] "id:a"
      { type := EventType.click, html := "<button id=\"a\">Y</button>" } rfl rfl⟩

/-- C9 counterexample: the claim requires the zero-StageRecord case and the
all-events-filtered case to render alike (header only), but the code skips
the section entirely (no `WHEN` header at all) when the stage has no
StageRecords, while a stage whose only events are filtered out still prints
its header. -/
theorem C9_section_counterexample :
    printEventsByStage [] = [] ∧
    ("\n=== WHEN ===" ∉ printEventsByStage []) ∧
    printEventsByStage exWhenLedger = ["\n=== WHEN ==="] :=
  ⟨rfl, by decide, rfl⟩

/-- C9 (amended): the report always emits its sections in the fixed order
GIVEN, WHEN, THEN, each section depending only on that stage's StageRecords
in ledger order (hence independent of visitation order); a stage with zero
StageRecords is omitted entirely (not even its header is printed), while a
stage that has StageRecords whose events are all filtered out shows only
its header with no numbered lines. -/
theorem C9_sections_fixed_order :
    (∀ ledger : List StageEvents,
      printEventsByStage ledger
        = sectionFor ledger Stage.GIVEN ++ sectionFor ledger Stage.WHEN
          ++ sectionFor ledger Stage.THEN) ∧
    (∀ (l1 l2 : List StageEvents) (st : Stage),
      l1.filter (fun se => se.stage == st) = l2.filter (fun se => se.stage == st) →
      sectionFor l1 st = sectionFor l2 st) ∧
    (∀ (ledger : List StageEvents) (st : Stage),
      ledger.filter (fun se => se.stage == st) = [] → sectionFor ledger st = []) ∧
    (∀ (ledger : List StageEvents) (st : Stage),
      (ledger.filter (fun se => se.stage == st)).isEmpty = false →
      printStageEvents (((ledger.filter (fun se => se.stage == st)).map
        (fun se => se.events)).flatten) = [] →
      sectionFor ledger st = ["\n=== " ++ stageName st ++ " ==="]) := by
  refine ⟨fun ledger => rfl, ?_, ?_, ?_⟩
  · intro l1 l2 st h
    unfold sectionFor
    rw [h]
  · intro ledger st h
    unfold sectionFor
    rw [h]
    rfl
  · intro ledger st h1 h2
    unfold sectionFor
    rw [if_neg (by simp [h1]), h2]

/-- Witness for C9 (amended): the header-only conclusion at a ledger whose
single WHEN record carries only an empty-valued input. -/
theorem C9_sections_fixed_order_witness :
    sectionFor exWhenLedger Stage.WHEN = ["\n=== " ++ stageName Stage.WHEN ++ " ==="] :=
  C9_sections_fixed_order.2.2.2 exWhenLedger Stage.WHEN rfl rfl

end TestRecorder
